import Mathlib

/-!
Verification of the sorting core of `jupyterlab_file_browser_sorting_extension`.

The embedding follows `src/index.ts`. The comparator engine (`cLocaleCompare`,
`getPriority`, `compareByName`, the inline comparator of `sortItems`) is
translated directly. JavaScript's `Array.prototype.sort` is required by the
language specification to be a stable sort ordered by the supplied comparator;
it is modelled by `List.insertionSort`, which is stable. The host-provided
collator `String.prototype.localeCompare` (used by `defaultLocaleCompare`) is
an ICU service and is modelled as an explicit function parameter `dlc`,
assumed where needed to be a consistent comparator, as ECMA-402 requires.
-/

/-- One file-system item as exposed by the host (`Contents.IModel`): `name`,
`type` (`"directory"`, `"notebook"`, or other kinds), `last_modified`
(modelled as the numeric time value that `new Date(x).getTime()` yields, the
string-to-date parsing being a host service), and the nullable `size`. -/
structure Entry where
  name : String
  type : String
  last_modified : Int
  size : Option Int
deriving DecidableEq

/-- Sort direction, from the `'ascending' | 'descending'` union type. -/
inductive Direction where
  | ascending
  | descending
deriving DecidableEq

/-- The sort state handed to `sortItems`: `{ direction; key: string }`. -/
structure SortState where
  direction : Direction
  key : String
deriving DecidableEq

/-- The process-wide configuration: the two module-level flags
`useCLocaleSorting` (default `true`) and `sortNotebooksFirst`
(default `false`). -/
structure Configuration where
  useCLocaleSorting : Bool
  sortNotebooksFirst : Bool
deriving DecidableEq

/-- The default values of the two flags (lines 39-40 of `index.ts`). -/
def defaultConfiguration : Configuration :=
  { useCLocaleSorting := true, sortNotebooksFirst := false }

/-- The loop of `cLocaleCompare`, acting on the sequences of UTF-16 code
units: the first differing code unit decides (`charCodeA - charCodeB`),
otherwise `lenA - lenB`. -/
def cLocaleCompareCodes : List Nat → List Nat → Int
  | a :: as, b :: bs => if a ≠ b then (a : Int) - (b : Int) else cLocaleCompareCodes as bs
  | as, bs => ((as.length : Int) - (bs.length : Int))

/-- The UTF-16 encoding of one character: JavaScript strings are sequences of
UTF-16 code units, and `charCodeAt` reads single units (surrogate halves for
astral characters). -/
def utf16Units (c : Char) : List Nat :=
  if c.toNat < 0x10000 then [c.toNat]
  else [0xD800 + (c.toNat - 0x10000) / 0x400, 0xDC00 + (c.toNat - 0x10000) % 0x400]

/-- The sequence of UTF-16 code units of a string, i.e. what indexing by
`charCodeAt` traverses. -/
def strCodes (s : String) : List Nat := s.data.flatMap utf16Units

/-- `cLocaleCompare` of `index.ts`: LC_COLLATE=C (ASCIIbetical) comparison.
Compares code units left to right; the first difference decides; if the loop
exhausts the shorter string, the length difference decides. -/
def cLocaleCompare (a b : String) : Int :=
  cLocaleCompareCodes (strCodes a) (strCodes b)

/-- `getPriority` of `sortItems`: directories tier 0; notebooks tier 1 when
`sortNotebooksFirst` is set; everything else tier 2. -/
def getPriority (sortNotebooksFirst : Bool) (item : Entry) : Int :=
  if item.type = "directory" then 0
  else if sortNotebooksFirst ∧ item.type = "notebook" then 1
  else 2

/-- `compareByName` of `sortItems`: `cLocaleCompare` when `useCLocaleSorting`
is set, otherwise the host collator (`defaultLocaleCompare`), here the
parameter `dlc`. -/
def compareByName (dlc : String → String → Int) (useCLocaleSorting : Bool)
    (a b : Entry) : Int :=
  if useCLocaleSorting then cLocaleCompare a.name b.name else dlc a.name b.name

/-- `const reverse = state.direction === 'descending' ? -1 : 1`. -/
def reverseOf : Direction → Int
  | Direction.descending => -1
  | Direction.ascending => 1

/-- The key comparison inside the comparator of `sortItems`, before the
direction multiplier: `last_modified` compares time values, `file_size`
computes `(b.size ?? 0) - (a.size ?? 0)`, and every other key falls through
to `compareByName`. -/
def rawKeyCompare (dlc : String → String → Int) (useCLocaleSorting : Bool)
    (key : String) (a b : Entry) : Int :=
  if key = "last_modified" then a.last_modified - b.last_modified
  else if key = "file_size" then (b.size.getD 0) - (a.size.getD 0)
  else compareByName dlc useCLocaleSorting a b

/-- The comparator closure passed to `copy.sort`: tier difference decides
first (never reversed); within a tier the key comparison times the direction
multiplier. -/
def itemCompare (dlc : String → String → Int) (state : SortState)
    (cfg : Configuration) (a b : Entry) : Int :=
  let priorityA := getPriority cfg.sortNotebooksFirst a
  let priorityB := getPriority cfg.sortNotebooksFirst b
  if priorityA ≠ priorityB then priorityA - priorityB
  else rawKeyCompare dlc cfg.useCLocaleSorting state.key a b * reverseOf state.direction

/-- The "not after" relation induced by the comparator; a stable sort ordered
by `itemCompare` produces a list sorted by this relation. -/
def sortLe (dlc : String → String → Int) (state : SortState)
    (cfg : Configuration) (a b : Entry) : Prop :=
  itemCompare dlc state cfg a b ≤ 0

instance (dlc : String → String → Int) (state : SortState) (cfg : Configuration) :
    DecidableRel (sortLe dlc state cfg) :=
  fun _ _ => Int.decLe _ _

/-- `sortItems` of `index.ts`: copies the input and sorts it with the
comparator above. `Array.prototype.sort` is a stable comparator sort, modelled
by stable insertion sort. -/
def sortItems (dlc : String → String → Int) (items : List Entry)
    (state : SortState) (cfg : Configuration) : List Entry :=
  List.insertionSort (sortLe dlc state cfg) items

/-- `useCLocaleSorting = !useCLocaleSorting` (the toggle command's fallback
path, line 242 of `index.ts`), as a `Configuration` update. -/
def toggleUseCLocaleSorting (c : Configuration) : Configuration :=
  { c with useCLocaleSorting := !c.useCLocaleSorting }

/-- Flipping the host-owned `sortNotebooksFirst` flag, as a `Configuration`
update. -/
def toggleSortNotebooksFirst (c : Configuration) : Configuration :=
  { c with sortNotebooksFirst := !c.sortNotebooksFirst }

/-- Outcome of the patched `listing.sort` override: the replacement value of
`sortedItems`, the stored `_sortState`, and whether `sortItems` (the
comparator engine) was invoked. -/
structure PatchedSortOutcome where
  sortedItems : List Entry
  sortState : SortState
  engineInvoked : Bool
deriving DecidableEq

/-- The patched `listing.sort` body (lines 151-175 of `index.ts`) on a model
snapshot: an empty snapshot resets the sorted result to `[]` and stores the
state without calling `sortItems`; otherwise the snapshot is sorted by
`sortItems`. -/
def patchedSort (dlc : String → String → Int) (snapshot : List Entry)
    (state : SortState) (cfg : Configuration) : PatchedSortOutcome :=
  if snapshot.length = 0 then
    { sortedItems := [], sortState := state, engineInvoked := false }
  else
    { sortedItems := sortItems dlc snapshot state cfg, sortState := state,
      engineInvoked := true }

/-- A consistent comparator in the sense ECMA-402 guarantees for
`localeCompare`: sign-symmetric and transitive on the "not after" relation. -/
def ConsistentCmp (f : String → String → Int) : Prop :=
  (∀ a b, f a b ≤ 0 ↔ 0 ≤ f b a) ∧
  (∀ a b c, f a b ≤ 0 → f b c ≤ 0 → f a c ≤ 0)

/-- Two distinct entries in the same tier that the name comparator cannot
distinguish (same type and name, different time and size). -/
def a5entry1 : Entry :=
  { name := "same", type := "file", last_modified := 7, size := some 3 }

def a5entry2 : Entry :=
  { name := "same", type := "file", last_modified := 8, size := some 9 }

/-- A plain file entry with the given name (the ten C1 entries share a type
and differ only in name). -/
def namedFile (s : String) : Entry :=
  { name := s, type := "file", last_modified := 0, size := none }

/-- The ten C1 entries, in a scrambled input order. -/
def c1Input : List Entry :=
  [namedFile "readme", namedFile "ABC", namedFile ".profile", namedFile "zebra",
   namedFile "Makefile", namedFile "_config", namedFile "123file", namedFile "abc",
   namedFile "README", namedFile ".hidden"]

/-- The order the specification requires for the ten C1 entries. -/
def c1Expected : List Entry :=
  [namedFile ".hidden", namedFile ".profile", namedFile "123file", namedFile "ABC",
   namedFile "Makefile", namedFile "README", namedFile "_config", namedFile "abc",
   namedFile "readme", namedFile "zebra"]

theorem consistentCmp_zero : ConsistentCmp (fun _ _ => (0 : Int)) :=
  ⟨fun _ _ => by simp, fun _ _ _ h _ => h⟩

theorem cLocaleCompareCodes_nil_le (c : List Nat) : cLocaleCompareCodes [] c ≤ 0 := by
  cases c with
  | nil => simp [cLocaleCompareCodes]
  | cons x xs =>
    simp [cLocaleCompareCodes]
    omega

theorem cLocaleCompareCodes_neg :
    ∀ a b : List Nat, cLocaleCompareCodes b a = -cLocaleCompareCodes a b
  | [], [] => by simp [cLocaleCompareCodes]
  | [], _ :: _ => by simp [cLocaleCompareCodes]
  | _ :: _, [] => by simp [cLocaleCompareCodes]
  | a :: as, b :: bs => by
    by_cases h : a = b
    · subst h
      simpa [cLocaleCompareCodes] using cLocaleCompareCodes_neg as bs
    · simp only [cLocaleCompareCodes, ne_eq, h, Ne.symm h, not_false_eq_true, if_true,
        ite_true]
      omega

theorem cLocaleCompareCodes_trans (a : List Nat) : ∀ b c : List Nat,
    cLocaleCompareCodes a b ≤ 0 → cLocaleCompareCodes b c ≤ 0 →
    cLocaleCompareCodes a c ≤ 0 := by
  induction a with
  | nil => intro b c _ _; exact cLocaleCompareCodes_nil_le c
  | cons x as ih =>
    intro b c h1 h2
    cases b with
    | nil =>
      exfalso
      simp [cLocaleCompareCodes] at h1
      omega
    | cons y bs =>
      cases c with
      | nil =>
        exfalso
        simp [cLocaleCompareCodes] at h2
        omega
      | cons z cs =>
        by_cases hxy : x = y
        · subst hxy
          by_cases hxz : x = z
          · subst hxz
            simp only [cLocaleCompareCodes, ne_eq, not_true_eq_false, eq_self_iff_true,
              not_true, ite_false] at h1 h2 ⊢
            exact ih bs cs h1 h2
          · simp only [cLocaleCompareCodes, ne_eq, eq_self_iff_true, not_true,
              ite_false, hxz, not_false_eq_true, ite_true] at h2 ⊢
            exact h2
        · by_cases hyz : y = z
          · subst hyz
            simp only [cLocaleCompareCodes, ne_eq, eq_self_iff_true, not_true,
              ite_false, hxy, not_false_eq_true, ite_true] at h1 ⊢
            exact h1
          · by_cases hxz : x = z
            · subst hxz
              exfalso
              simp only [cLocaleCompareCodes, ne_eq, hxy, hyz, not_false_eq_true,
                ite_true] at h1 h2
              omega
            · simp only [cLocaleCompareCodes, ne_eq, hxy, hyz, hxz, not_false_eq_true,
                ite_true] at h1 h2 ⊢
              omega

theorem cLocaleCompareCodes_first_diff : ∀ (a b : List Nat) (i : Nat),
    a.take i = b.take i → i < a.length → i < b.length →
    a.getD i 0 ≠ b.getD i 0 →
    (cLocaleCompareCodes a b < 0 ↔ a.getD i 0 < b.getD i 0)
  | [], _, i, _, ha, _, _ => by simp at ha
  | _ :: _, [], i, _, _, hb, _ => by simp at hb
  | x :: as, y :: bs, 0, _, _, _, hne => by
    simp only [List.getD_cons_zero] at hne ⊢
    simp only [cLocaleCompareCodes, ne_eq, hne, not_false_eq_true, ite_true]
    omega
  | x :: as, y :: bs, i + 1, htake, ha, hb, hne => by
    simp only [List.take_succ_cons, List.cons.injEq] at htake
    obtain ⟨rfl, htake⟩ := htake
    simp only [List.getD_cons_succ] at hne ⊢
    simp only [cLocaleCompareCodes, ne_eq, eq_self_iff_true, not_true, ite_false]
    exact cLocaleCompareCodes_first_diff as bs i htake
      (by simpa using ha) (by simpa using hb) hne

theorem cLocaleCompareCodes_append_lt : ∀ (a u : List Nat), u ≠ [] →
    cLocaleCompareCodes a (a ++ u) < 0
  | [], u, hu => by
    cases u with
    | nil => exact absurd rfl hu
    | cons z ts =>
      simp [cLocaleCompareCodes]
      omega
  | x :: as, u, hu => by
    simpa [cLocaleCompareCodes] using cLocaleCompareCodes_append_lt as u hu

theorem compareByName_flip {dlc : String → String → Int} (hdlc : ConsistentCmp dlc)
    (ucl : Bool) (a b : Entry) :
    compareByName dlc ucl a b ≤ 0 ↔ 0 ≤ compareByName dlc ucl b a := by
  cases ucl with
  | false => simpa [compareByName] using hdlc.1 a.name b.name
  | true =>
    simp only [compareByName, ite_true, cLocaleCompare]
    rw [cLocaleCompareCodes_neg (strCodes a.name) (strCodes b.name)]
    omega

theorem compareByName_trans {dlc : String → String → Int} (hdlc : ConsistentCmp dlc)
    (ucl : Bool) (a b c : Entry)
    (hab : compareByName dlc ucl a b ≤ 0) (hbc : compareByName dlc ucl b c ≤ 0) :
    compareByName dlc ucl a c ≤ 0 := by
  cases ucl with
  | false =>
    simp only [compareByName, Bool.false_eq_true, ite_false] at hab hbc ⊢
    exact hdlc.2 a.name b.name c.name hab hbc
  | true =>
    simp only [compareByName, ite_true, cLocaleCompare] at hab hbc ⊢
    exact cLocaleCompareCodes_trans _ _ _ hab hbc

theorem rawKeyCompare_flip {dlc : String → String → Int} (hdlc : ConsistentCmp dlc)
    (ucl : Bool) (key : String) (a b : Entry) :
    rawKeyCompare dlc ucl key a b ≤ 0 ↔ 0 ≤ rawKeyCompare dlc ucl key b a := by
  unfold rawKeyCompare
  by_cases h1 : key = "last_modified"
  · simp only [h1, ite_true]
    omega
  · by_cases h2 : key = "file_size"
    · simp [h1, h2]
    · simp only [h1, h2, ite_false, if_neg]
      exact compareByName_flip hdlc ucl a b

theorem rawKeyCompare_trans {dlc : String → String → Int} (hdlc : ConsistentCmp dlc)
    (ucl : Bool) (key : String) (a b c : Entry)
    (hab : rawKeyCompare dlc ucl key a b ≤ 0) (hbc : rawKeyCompare dlc ucl key b c ≤ 0) :
    rawKeyCompare dlc ucl key a c ≤ 0 := by
  unfold rawKeyCompare at hab hbc ⊢
  by_cases h1 : key = "last_modified"
  · simp only [h1, ite_true] at hab hbc ⊢
    omega
  · by_cases h2 : key = "file_size"
    · simp [h1, h2] at hab hbc ⊢
      omega
    · simp only [h1, h2, ite_false, if_neg] at hab hbc ⊢
      exact compareByName_trans hdlc ucl a b c hab hbc

theorem rawKeyCompare_trans_ge {dlc : String → String → Int} (hdlc : ConsistentCmp dlc)
    (ucl : Bool) (key : String) (a b c : Entry)
    (hab : 0 ≤ rawKeyCompare dlc ucl key a b) (hbc : 0 ≤ rawKeyCompare dlc ucl key b c) :
    0 ≤ rawKeyCompare dlc ucl key a c := by
  have hba : rawKeyCompare dlc ucl key b a ≤ 0 :=
    (rawKeyCompare_flip hdlc ucl key b a).mpr hab
  have hcb : rawKeyCompare dlc ucl key c b ≤ 0 :=
    (rawKeyCompare_flip hdlc ucl key c b).mpr hbc
  exact (rawKeyCompare_flip hdlc ucl key c a).mp
    (rawKeyCompare_trans hdlc ucl key c b a hcb hba)

theorem rawKeyCompare_total_le {dlc : String → String → Int} (hdlc : ConsistentCmp dlc)
    (ucl : Bool) (key : String) (a b : Entry) :
    rawKeyCompare dlc ucl key a b ≤ 0 ∨ rawKeyCompare dlc ucl key b a ≤ 0 := by
  by_cases h : rawKeyCompare dlc ucl key a b ≤ 0
  · exact Or.inl h
  · exact Or.inr ((rawKeyCompare_flip hdlc ucl key b a).mpr (by omega))

theorem rawKeyCompare_total_ge {dlc : String → String → Int} (hdlc : ConsistentCmp dlc)
    (ucl : Bool) (key : String) (a b : Entry) :
    0 ≤ rawKeyCompare dlc ucl key a b ∨ 0 ≤ rawKeyCompare dlc ucl key b a := by
  by_cases h : 0 ≤ rawKeyCompare dlc ucl key a b
  · exact Or.inl h
  · exact Or.inr ((rawKeyCompare_flip hdlc ucl key a b).mp (by omega))

theorem itemCompare_trans {dlc : String → String → Int} (hdlc : ConsistentCmp dlc)
    (st : SortState) (cfg : Configuration) (a b c : Entry)
    (hab : itemCompare dlc st cfg a b ≤ 0) (hbc : itemCompare dlc st cfg b c ≤ 0) :
    itemCompare dlc st cfg a c ≤ 0 := by
  obtain ⟨d, key⟩ := st
  simp only [itemCompare] at hab hbc ⊢
  by_cases h1 : getPriority cfg.sortNotebooksFirst a = getPriority cfg.sortNotebooksFirst b
  · by_cases h2 : getPriority cfg.sortNotebooksFirst b = getPriority cfg.sortNotebooksFirst c
    · have h3 : getPriority cfg.sortNotebooksFirst a = getPriority cfg.sortNotebooksFirst c :=
        h1.trans h2
      simp only [h1, h2, h3, ne_eq, not_true_eq_false, ite_false] at hab hbc ⊢
      cases d with
      | ascending =>
        simp only [reverseOf, mul_one] at hab hbc ⊢
        exact rawKeyCompare_trans hdlc cfg.useCLocaleSorting key a b c hab hbc
      | descending =>
        simp only [reverseOf] at hab hbc ⊢
        have hab' : 0 ≤ rawKeyCompare dlc cfg.useCLocaleSorting key a b := by omega
        have hbc' : 0 ≤ rawKeyCompare dlc cfg.useCLocaleSorting key b c := by omega
        have := rawKeyCompare_trans_ge hdlc cfg.useCLocaleSorting key a b c hab' hbc'
        omega
    · have h3 : getPriority cfg.sortNotebooksFirst a ≠ getPriority cfg.sortNotebooksFirst c :=
        h1 ▸ h2
      simp only [h2, h3, ne_eq, not_false_eq_true, ite_true] at hbc ⊢
      omega
  · by_cases h2 : getPriority cfg.sortNotebooksFirst b = getPriority cfg.sortNotebooksFirst c
    · have h3 : getPriority cfg.sortNotebooksFirst a ≠ getPriority cfg.sortNotebooksFirst c :=
        h2 ▸ h1
      simp only [h1, h3, ne_eq, not_false_eq_true, ite_true] at hab ⊢
      omega
    · simp only [h1, h2, ne_eq, not_false_eq_true, ite_true] at hab hbc
      have h3 : getPriority cfg.sortNotebooksFirst a ≠ getPriority cfg.sortNotebooksFirst c := by
        omega
      simp only [h3, ne_eq, not_false_eq_true, ite_true]
      omega

theorem itemCompare_total {dlc : String → String → Int} (hdlc : ConsistentCmp dlc)
    (st : SortState) (cfg : Configuration) (a b : Entry) :
    itemCompare dlc st cfg a b ≤ 0 ∨ itemCompare dlc st cfg b a ≤ 0 := by
  obtain ⟨d, key⟩ := st
  simp only [itemCompare]
  by_cases h : getPriority cfg.sortNotebooksFirst a = getPriority cfg.sortNotebooksFirst b
  · simp only [h, ne_eq, not_true_eq_false, ite_false]
    cases d with
    | ascending =>
      simp only [reverseOf, mul_one]
      exact rawKeyCompare_total_le hdlc cfg.useCLocaleSorting key a b
    | descending =>
      simp only [reverseOf]
      rcases rawKeyCompare_total_ge hdlc cfg.useCLocaleSorting key a b with h' | h'
      · exact Or.inl (by omega)
      · exact Or.inr (by omega)
  · simp only [h, Ne.symm h, ne_eq, not_false_eq_true, ite_true]
    omega

theorem sortLe_total {dlc : String → String → Int} (hdlc : ConsistentCmp dlc)
    (st : SortState) (cfg : Configuration) : IsTotal Entry (sortLe dlc st cfg) :=
  ⟨fun a b => itemCompare_total hdlc st cfg a b⟩

theorem sortLe_trans {dlc : String → String → Int} (hdlc : ConsistentCmp dlc)
    (st : SortState) (cfg : Configuration) : IsTrans Entry (sortLe dlc st cfg) :=
  ⟨fun a b c hab hbc => itemCompare_trans hdlc st cfg a b c hab hbc⟩

/-- A stable comparator sort with a consistent comparator leaves the list
sorted by the comparator's "not after" relation. -/
theorem sorted_sortItems {dlc : String → String → Int} (hdlc : ConsistentCmp dlc)
    (items : List Entry) (st : SortState) (cfg : Configuration) :
    (sortItems dlc items st cfg).Sorted (sortLe dlc st cfg) := by
  haveI := sortLe_total hdlc st cfg
  haveI := sortLe_trans hdlc st cfg
  exact List.sorted_insertionSort _ _

theorem getPriority_of_dir {snf : Bool} {e : Entry} (h : e.type = "directory") :
    getPriority snf e = 0 := by
  simp [getPriority, h]

theorem getPriority_pos {snf : Bool} {e : Entry} (h : e.type ≠ "directory") :
    0 < getPriority snf e := by
  simp only [getPriority, h, ite_false, if_neg]
  split <;> omega

theorem getPriority_nonneg (snf : Bool) (e : Entry) : 0 ≤ getPriority snf e := by
  unfold getPriority
  split
  · omega
  · split <;> omega

theorem type_dir_of_getPriority_eq_zero {snf : Bool} {e : Entry}
    (h : getPriority snf e = 0) : e.type = "directory" := by
  by_contra hne
  have := @getPriority_pos snf e hne
  omega

theorem type_notebook_of_getPriority_eq_one {snf : Bool} {e : Entry}
    (h : getPriority snf e = 1) : e.type = "notebook" := by
  unfold getPriority at h
  split at h
  · exact absurd h (by decide)
  · split at h
    · next hc => exact hc.2
    · exact absurd h (by decide)

theorem sortLe_priority_mono {dlc : String → String → Int} {st : SortState}
    {cfg : Configuration} {a b : Entry} (h : sortLe dlc st cfg a b) :
    getPriority cfg.sortNotebooksFirst a ≤ getPriority cfg.sortNotebooksFirst b := by
  by_cases hp : getPriority cfg.sortNotebooksFirst a = getPriority cfg.sortNotebooksFirst b
  · omega
  · simp only [sortLe, itemCompare, hp, ne_eq, not_false_eq_true, ite_true] at h
    omega

/-- C2: for every entry list, `SortSpec` and `Configuration` (and for any
consistent host collator), every directory-typed entry precedes every
non-directory entry in the output of `sortItems`; the statement quantifies
over both directions, so the direction multiplier never affects the tier
placement. -/
theorem c2_directories_always_first (dlc : String → String → Int)
    (hdlc : ConsistentCmp dlc) (items : List Entry) (st : SortState)
    (cfg : Configuration) :
    (sortItems dlc items st cfg).Pairwise
      (fun a b => b.type = "directory" → a.type = "directory") := by
  refine List.Pairwise.imp ?_ (sorted_sortItems hdlc items st cfg)
  intro a b hab hb
  have hmono := sortLe_priority_mono hab
  have hb0 : getPriority cfg.sortNotebooksFirst b = 0 := getPriority_of_dir hb
  have hge := getPriority_nonneg cfg.sortNotebooksFirst a
  exact @type_dir_of_getPriority_eq_zero cfg.sortNotebooksFirst a (by omega)

/-- Witness for C2 at a concrete input: one file and one directory, in that
input order, under the default configuration. -/
theorem c2_witness :
    (sortItems (fun _ _ => 0)
        [{ name := "zebra", type := "file", last_modified := 0, size := none },
         { name := "docs", type := "directory", last_modified := 0, size := none }]
        { direction := Direction.ascending, key := "name" }
        defaultConfiguration).Pairwise
      (fun a b => b.type = "directory" → a.type = "directory") :=
  c2_directories_always_first (fun _ _ => 0) consistentCmp_zero _ _ _

/-- C4: with `sortNotebooksFirst = true`, for every `SortSpec` (and consistent
host collator) the output of `sortItems` places notebooks after all
directories and before all entries that are neither directories nor
notebooks. -/
theorem c4_notebooks_between (dlc : String → String → Int)
    (hdlc : ConsistentCmp dlc) (items : List Entry) (st : SortState)
    (cfg : Configuration) (hsnf : cfg.sortNotebooksFirst = true) :
    (sortItems dlc items st cfg).Pairwise
      (fun a b =>
        (b.type = "directory" → a.type = "directory") ∧
        (b.type = "notebook" → a.type = "directory" ∨ a.type = "notebook")) := by
  refine List.Pairwise.imp ?_ (sorted_sortItems hdlc items st cfg)
  intro a b hab
  have hmono := sortLe_priority_mono hab
  have hge := getPriority_nonneg cfg.sortNotebooksFirst a
  constructor
  · intro hb
    have hb0 : getPriority cfg.sortNotebooksFirst b = 0 := getPriority_of_dir hb
    exact @type_dir_of_getPriority_eq_zero cfg.sortNotebooksFirst a (by omega)
  · intro hb
    have hbd : b.type ≠ "directory" := by rw [hb]; decide
    have hb1 : getPriority cfg.sortNotebooksFirst b = 1 := by
      simp [getPriority, hb, hbd, hsnf]
    have : getPriority cfg.sortNotebooksFirst a = 0 ∨
        getPriority cfg.sortNotebooksFirst a = 1 := by omega
    rcases this with h0 | h1
    · exact Or.inl (@type_dir_of_getPriority_eq_zero cfg.sortNotebooksFirst a h0)
    · exact Or.inr (@type_notebook_of_getPriority_eq_one cfg.sortNotebooksFirst a h1)

/-- Witness for C4 at a concrete input: a file, a notebook and a directory
under `sortNotebooksFirst = true`. -/
theorem c4_witness :
    (sortItems (fun _ _ => 0)
        [{ name := "a.txt", type := "file", last_modified := 0, size := none },
         { name := "b.ipynb", type := "notebook", last_modified := 0, size := none },
         { name := "c", type := "directory", last_modified := 0, size := none }]
        { direction := Direction.descending, key := "name" }
        { useCLocaleSorting := true, sortNotebooksFirst := true }).Pairwise
      (fun a b =>
        (b.type = "directory" → a.type = "directory") ∧
        (b.type = "notebook" → a.type = "directory" ∨ a.type = "notebook")) :=
  c4_notebooks_between (fun _ _ => 0) consistentCmp_zero _ _ _ rfl

/-- C5: `sortItems` is stable: two entries that occur in this order in the
input and compare equal under the effective comparator occur in the same
relative order in the output, for every `SortSpec` and `Configuration`. -/
theorem c5_sort_stable (dlc : String → String → Int) (items : List Entry)
    (st : SortState) (cfg : Configuration) (a b : Entry)
    (hsub : [a, b].Sublist items) (heq : itemCompare dlc st cfg a b = 0) :
    [a, b].Sublist (sortItems dlc items st cfg) :=
  List.pair_sublist_insertionSort (show sortLe dlc st cfg a b by
    unfold sortLe; omega) hsub

/-- Witness for C5: two same-priority entries with equal names keep their
input order. -/
theorem c5_witness :
    [a5entry1, a5entry2].Sublist
      (sortItems (fun _ _ => 0) [a5entry1, a5entry2]
        { direction := Direction.ascending, key := "name" } defaultConfiguration) :=
  c5_sort_stable (fun _ _ => 0) [a5entry1, a5entry2]
    { direction := Direction.ascending, key := "name" } defaultConfiguration
    a5entry1 a5entry2 (by decide) (by decide)

/-- C6: `sortItems` returns a permutation of its input: the same elements, no
additions or removals. The embedding is a pure function on immutable lists,
so the input sequence itself is unchanged by construction. -/
theorem c6_sort_perm (dlc : String → String → Int) (items : List Entry)
    (st : SortState) (cfg : Configuration) :
    (sortItems dlc items st cfg).Perm items :=
  List.perm_insertionSort _ _

/-- C7: `sortItems` is idempotent: re-sorting its own output under the same
`SortSpec` and `Configuration` (with a consistent host collator) returns the
output unchanged. -/
theorem c7_sort_idempotent (dlc : String → String → Int) (hdlc : ConsistentCmp dlc)
    (items : List Entry) (st : SortState) (cfg : Configuration) :
    sortItems dlc (sortItems dlc items st cfg) st cfg = sortItems dlc items st cfg :=
  List.Sorted.insertionSort_eq (sorted_sortItems hdlc items st cfg)

/-- Witness for C7 at a concrete input. -/
theorem c7_witness :
    sortItems (fun _ _ => 0)
        (sortItems (fun _ _ => 0) [a5entry2, a5entry1]
          { direction := Direction.descending, key := "file_size" } defaultConfiguration)
        { direction := Direction.descending, key := "file_size" } defaultConfiguration
      = sortItems (fun _ _ => 0) [a5entry2, a5entry1]
        { direction := Direction.descending, key := "file_size" } defaultConfiguration :=
  c7_sort_idempotent (fun _ _ => 0) consistentCmp_zero [a5entry2, a5entry1]
    { direction := Direction.descending, key := "file_size" } defaultConfiguration

/-- C8: flipping either boolean configuration flag twice restores the original
configuration, and sorting under the twice-toggled configuration gives output
identical to sorting under the original configuration, for every entry list
and `SortSpec`. -/
theorem c8_toggle_roundtrip (dlc : String → String → Int) (items : List Entry)
    (st : SortState) (cfg : Configuration) :
    toggleUseCLocaleSorting (toggleUseCLocaleSorting cfg) = cfg ∧
    toggleSortNotebooksFirst (toggleSortNotebooksFirst cfg) = cfg ∧
    sortItems dlc items st (toggleUseCLocaleSorting (toggleUseCLocaleSorting cfg))
      = sortItems dlc items st cfg ∧
    sortItems dlc items st (toggleSortNotebooksFirst (toggleSortNotebooksFirst cfg))
      = sortItems dlc items st cfg := by
  have h1 : toggleUseCLocaleSorting (toggleUseCLocaleSorting cfg) = cfg := by
    simp [toggleUseCLocaleSorting]
  have h2 : toggleSortNotebooksFirst (toggleSortNotebooksFirst cfg) = cfg := by
    simp [toggleSortNotebooksFirst]
  exact ⟨h1, h2, by rw [h1], by rw [h2]⟩

/-- C9: when a refresh finds an empty snapshot, the patched sort stores the
state and resets the sorted result to the empty sequence with the comparator
engine not invoked, for every `SortSpec` and `Configuration`. -/
theorem c9_empty_snapshot_reset (dlc : String → String → Int) (st : SortState)
    (cfg : Configuration) :
    patchedSort dlc [] st cfg
      = { sortedItems := [], sortState := st, engineInvoked := false } :=
  rfl

/-- C3: for `key = file_size`, the raw comparator is `(b.size ?? 0) -
(a.size ?? 0)`; the direction multiplier applies only afterwards, so with
`ascending` the larger size sorts first within a tier. -/
theorem c3_file_size_reversed_bias (dlc : String → String → Int) (ucl snf : Bool)
    (d : Direction) (a b : Entry) :
    rawKeyCompare dlc ucl "file_size" a b = b.size.getD 0 - a.size.getD 0 ∧
    (getPriority snf a = getPriority snf b →
      itemCompare dlc { direction := d, key := "file_size" }
          { useCLocaleSorting := ucl, sortNotebooksFirst := snf } a b
        = (b.size.getD 0 - a.size.getD 0) * reverseOf d) ∧
    (getPriority snf a = getPriority snf b → b.size.getD 0 < a.size.getD 0 →
      itemCompare dlc { direction := Direction.ascending, key := "file_size" }
          { useCLocaleSorting := ucl, sortNotebooksFirst := snf } a b < 0) := by
  have hraw : rawKeyCompare dlc ucl "file_size" a b = b.size.getD 0 - a.size.getD 0 := by
    simp [rawKeyCompare]
  refine ⟨hraw, ?_, ?_⟩
  · intro hp
    simp only [itemCompare, hp, ne_eq, not_true_eq_false, ite_false, hraw]
  · intro hp hsz
    simp only [itemCompare, hp, ne_eq, not_true_eq_false, ite_false, hraw, reverseOf,
      mul_one]
    omega

/-- Witness for C3: two same-tier files of sizes 9 and 3; ascending file_size
ordering puts the larger one first. -/
theorem c3_witness :
    rawKeyCompare (fun _ _ => 0) true "file_size" a5entry2 a5entry1
        = a5entry1.size.getD 0 - a5entry2.size.getD 0 ∧
    itemCompare (fun _ _ => 0) { direction := Direction.ascending, key := "file_size" }
        { useCLocaleSorting := true, sortNotebooksFirst := false } a5entry2 a5entry1 < 0 :=
  ⟨(c3_file_size_reversed_bias (fun _ _ => 0) true false Direction.ascending
      a5entry2 a5entry1).1,
   (c3_file_size_reversed_bias (fun _ _ => 0) true false Direction.ascending
      a5entry2 a5entry1).2.2 (by decide) (by decide)⟩

theorem orderedInsert_congr_rel {α : Type} {r s : α → α → Prop}
    [DecidableRel r] [DecidableRel s] (h : ∀ x y, r x y ↔ s x y) (x : α) :
    ∀ l : List α, List.orderedInsert r x l = List.orderedInsert s x l
  | [] => rfl
  | y :: ys => by
    simp only [List.orderedInsert]
    by_cases hxy : r x y
    · rw [if_pos hxy, if_pos ((h x y).mp hxy)]
    · rw [if_neg hxy, if_neg (fun hs' => hxy ((h x y).mpr hs')),
        orderedInsert_congr_rel h x ys]

theorem insertionSort_congr_rel {α : Type} {r s : α → α → Prop}
    [DecidableRel r] [DecidableRel s] (h : ∀ x y, r x y ↔ s x y) :
    ∀ l : List α, List.insertionSort r l = List.insertionSort s l
  | [] => rfl
  | x :: xs => by
    simp only [List.insertionSort]
    rw [insertionSort_congr_rel h xs, orderedInsert_congr_rel h x]

/-- C10: any key other than `last_modified` and `file_size` (not only
`"name"`) is compared by `compareByName`, i.e. by the name comparator that
`useCLocaleSorting` selects, and sorting under such a key gives exactly the
result of sorting under `"name"`; nothing fails on unrecognized keys. -/
theorem c10_unknown_key_falls_back_to_name (dlc : String → String → Int)
    (items : List Entry) (d : Direction) (key : String) (cfg : Configuration)
    (h1 : key ≠ "last_modified") (h2 : key ≠ "file_size") :
    (∀ a b, rawKeyCompare dlc cfg.useCLocaleSorting key a b
        = compareByName dlc cfg.useCLocaleSorting a b) ∧
    sortItems dlc items { direction := d, key := key } cfg
      = sortItems dlc items { direction := d, key := "name" } cfg := by
  have hraw : ∀ a b, rawKeyCompare dlc cfg.useCLocaleSorting key a b
      = compareByName dlc cfg.useCLocaleSorting a b := by
    intro a b
    simp [rawKeyCompare, h1, h2]
  refine ⟨hraw, ?_⟩
  unfold sortItems
  refine insertionSort_congr_rel ?_ items
  intro a b
  unfold sortLe itemCompare
  rw [show rawKeyCompare dlc cfg.useCLocaleSorting key a b
      = rawKeyCompare dlc cfg.useCLocaleSorting "name" a b by
    rw [hraw a b]; simp [rawKeyCompare]]

/-- Witness for C10 at the unrecognized key `"mimetype"`. -/
theorem c10_witness :
    (∀ a b, rawKeyCompare (fun _ _ => 0) defaultConfiguration.useCLocaleSorting
        "mimetype" a b
        = compareByName (fun _ _ => 0) defaultConfiguration.useCLocaleSorting a b) ∧
    sortItems (fun _ _ => 0) [a5entry1, a5entry2]
        { direction := Direction.ascending, key := "mimetype" } defaultConfiguration
      = sortItems (fun _ _ => 0) [a5entry1, a5entry2]
        { direction := Direction.ascending, key := "name" } defaultConfiguration :=
  c10_unknown_key_falls_back_to_name (fun _ _ => 0) [a5entry1, a5entry2]
    Direction.ascending "mimetype" defaultConfiguration (by decide) (by decide)

/-- C1: in strict byte-order mode, `cLocaleCompare` orders two strings by the
first differing code unit (strings agreeing on their first `i` units and
differing at position `i` compare by that unit), a string that is a proper
prefix of another sorts before it, and on the ten same-type entries of the
specification, ascending name sort returns exactly the stated order. -/
theorem c1_strict_byte_order :
    (∀ (s t : String) (i : Nat),
        (strCodes s).take i = (strCodes t).take i →
        i < (strCodes s).length → i < (strCodes t).length →
        (strCodes s).getD i 0 ≠ (strCodes t).getD i 0 →
        (cLocaleCompare s t < 0 ↔ (strCodes s).getD i 0 < (strCodes t).getD i 0)) ∧
    (∀ (s t : String) (u : List Nat), u ≠ [] → strCodes t = strCodes s ++ u →
        cLocaleCompare s t < 0) ∧
    (∀ (snf : Bool) (dlc : String → String → Int),
        sortItems dlc c1Input { direction := Direction.ascending, key := "name" }
            { useCLocaleSorting := true, sortNotebooksFirst := snf }
          = c1Expected) := by
  refine ⟨?_, ?_, ?_⟩
  · intro s t i h1 h2 h3 h4
    exact cLocaleCompareCodes_first_diff (strCodes s) (strCodes t) i h1 h2 h3 h4
  · intro s t u hu ht
    rw [cLocaleCompare, ht]
    exact cLocaleCompareCodes_append_lt (strCodes s) u hu
  · intro snf dlc
    cases snf <;> rfl

/-- Witness for C1: a concrete first-difference comparison, a concrete proper
prefix, and the concrete ten-entry sort. -/
theorem c1_witness :
    (cLocaleCompare "ABC" "abc" < 0 ↔
      (strCodes "ABC").getD 0 0 < (strCodes "abc").getD 0 0) ∧
    cLocaleCompare ".hidden" ".hiddenX" < 0 ∧
    sortItems (fun _ _ => 0) c1Input { direction := Direction.ascending, key := "name" }
        { useCLocaleSorting := true, sortNotebooksFirst := false }
      = c1Expected :=
  ⟨c1_strict_byte_order.1 "ABC" "abc" 0 (by decide) (by decide) (by decide) (by decide),
   c1_strict_byte_order.2.1 ".hidden" ".hiddenX" [88] (by decide) (by decide),
   c1_strict_byte_order.2.2 false (fun _ _ => 0)⟩
